import Mathlib

/-!
Verification of the go-composer.json library.

Strings are modelled as lists of characters (`Str`).  Go functions from
`internal/version/version.go` and `pkg/composer/composer.go` /
`pkg/composer/errors.go` are translated one-to-one; Go standard-library
helpers (`strings.Split`, `strings.TrimPrefix`, `strconv.ParseInt`,
`filepath.Base`, `filepath.Clean`, `filepath.Join`, `filepath.ToSlash`)
are modelled from their documented Unix behavior, since they are external
collaborators of the repository.  Go maps are modelled as association
lists with pairwise-distinct keys; the `for range` map iteration becomes a
fold over the list, and map-iteration-order independence is proved where
claimed.  A Go function returning `(T, error)` becomes `Except E T` or
`Option T`; a nil-pointer dereference is modelled as `none`.
-/

abbrev Str := List Char

deriving instance DecidableEq for Except

/-- Model of Go `strings.Split(s, sep)` for a one-character separator:
splits around each occurrence of `sep`; `splitChar sep [] = [[]]`
just as `strings.Split("", sep) = [""]`. -/
def splitChar (sep : Char) : Str → List Str
  | [] => [[]]
  | c :: rest =>
    if c = sep then [] :: splitChar sep rest
    else
      match splitChar sep rest with
      | [] => [[c]]
      | h :: t => (c :: h) :: t

/-- Model of Go `strings.TrimPrefix(s, "v")`: drops a single leading 'v'
when present. -/
def trimPrefixV (s : Str) : Str :=
  if s.headD ' ' = 'v' then s.tail else s

/-- The decimal digit characters, used to model decimal printing. -/
def digitChar (d : Nat) : Char :=
  match d with
  | 0 => '0' | 1 => '1' | 2 => '2' | 3 => '3' | 4 => '4'
  | 5 => '5' | 6 => '6' | 7 => '7' | 8 => '8' | _ => '9'

/-- Fuel-indexed most-significant-first decimal digits of a natural
number (`[]` for 0); the fuel makes the recursion structural so the
kernel can evaluate it. -/
def natDigitsAux : Nat → Nat → Str
  | 0, _ => []
  | fuel + 1, n =>
    if n = 0 then []
    else natDigitsAux fuel (n / 10) ++ [digitChar (n % 10)]

/-- The standard decimal notation of a natural number, as written in the
version strings of the claims ("X", "Y", "Z" written in decimal). -/
def toDecimal (n : Nat) : Str :=
  if n = 0 then ['0'] else natDigitsAux n n

/-- Model of Go `strconv.ParseInt(s, 10, 64)`: optional sign, decimal
digits, failure (`none`) on empty input, a non-digit character, or a
value outside the int64 range. -/
def parseInt64 (s : Str) : Option Int :=
  if s = [] then none
  else
    let neg := s.headD ' ' = '-'
    let digits := if s.headD ' ' = '-' ∨ s.headD ' ' = '+' then s.tail else s
    if digits = [] then none
    else if digits.all (fun c => c.isDigit) then
      let n : Nat := digits.foldl (fun acc c => acc * 10 + (c.toNat - 48)) 0
      if neg then
        if n ≤ 2 ^ 63 then some (-(n : Int)) else none
      else
        if n ≤ 2 ^ 63 - 1 then some ((n : Int)) else none
    else none

/-- `internal/version/version.go`: the `Version` struct. -/
structure Version where
  major : Int
  minor : Int
  micro : Int
  isDev : Bool
  isPatch : Bool
  isAlpha : Bool
  isBeta : Bool
  isRC : Bool
deriving DecidableEq

/-- The distinct error outcomes of `NewVersion`, one constructor per
`fmt.Errorf` call site in `internal/version/version.go`. -/
inductive VersionError where
  | emptyInput : VersionError
  | malformedFormat : VersionError
  | unknownSuffix : Str → VersionError
  | nonNumericComponent : Nat → Str → VersionError
deriving DecidableEq

/-- The `switch vals[1]` of `NewVersion`, mapping a recognized suffix
token to the flag tuple (dev, patch, alpha, beta, RC) it sets;
`none` for an unknown suffix. -/
def suffixFlags (suf : Str) : Option (Bool × Bool × Bool × Bool × Bool) :=
  if suf = "dev".data then some (true, false, false, false, false)
  else if suf = "patch".data ∨ suf = "p".data then some (false, true, false, false, false)
  else if suf = "alpha".data ∨ suf = "a".data then some (false, false, true, false, false)
  else if suf = "beta".data ∨ suf = "b".data then some (false, false, false, true, false)
  else if suf = "RC".data then some (false, false, false, false, true)
  else none

/-- The suffix-handling block of `NewVersion` (`if len(vals) == 2 { switch ... }`):
with two dash-separated segments the second must be a recognized token,
otherwise no flag is set. -/
def parseSuffix (vals : List Str) : Except VersionError (Bool × Bool × Bool × Bool × Bool) :=
  if vals.length = 2 then
    match suffixFlags (vals.getD 1 []) with
    | some f => .ok f
    | none => .error (.unknownSuffix (vals.getD 1 []))
  else .ok (false, false, false, false, false)

/-- The numeric tail of `NewVersion`: dot-split of the pre-suffix part,
exactly three components, each parsed by `strconv.ParseInt(..., 10, 64)`,
errors reported for part 1 first, then part 2, then part 3. -/
def parseNumbers (fl : Bool × Bool × Bool × Bool × Bool) (core : Str) :
    Except VersionError Version :=
  let parts := splitChar '.' core
  if parts.length ≠ 3 then .error .malformedFormat
  else
    match parseInt64 (parts.getD 0 []) with
    | none => .error (.nonNumericComponent 1 (parts.getD 0 []))
    | some major =>
      match parseInt64 (parts.getD 1 []) with
      | none => .error (.nonNumericComponent 2 (parts.getD 1 []))
      | some minor =>
        match parseInt64 (parts.getD 2 []) with
        | none => .error (.nonNumericComponent 3 (parts.getD 2 []))
        | some micro =>
          .ok ⟨major, minor, micro, fl.1, fl.2.1, fl.2.2.1, fl.2.2.2.1, fl.2.2.2.2⟩

/-- `internal/version/version.go` `NewVersion`: empty check, minimum
length check on the raw string, strip one leading "v", split on "-"
(more than two segments is malformed), recognize the suffix, then parse
the three dot-separated numeric components. -/
def NewVersion (val : Str) : Except VersionError Version :=
  if val = [] then .error .emptyInput
  else if val.length < 5 then .error .malformedFormat
  else
    let vals := splitChar '-' (trimPrefixV val)
    if 2 < vals.length then .error .malformedFormat
    else
      match parseSuffix vals with
      | .error e => .error e
      | .ok fl => parseNumbers fl (vals.getD 0 [])

example : NewVersion "2.5.1".data = .ok ⟨2, 5, 1, false, false, false, false, false⟩ := by decide
example : NewVersion "v0.5.1-dev".data = .ok ⟨0, 5, 1, true, false, false, false, false⟩ := by decide
example : NewVersion "v0.5.1-p".data = .ok ⟨0, 5, 1, false, true, false, false, false⟩ := by decide
example : NewVersion "v1.0.0-RC".data = .ok ⟨1, 0, 0, false, false, false, false, true⟩ := by decide
example : NewVersion "".data = .error .emptyInput := by decide
example : NewVersion "1.0".data = .error .malformedFormat := by decide
example : NewVersion "1.0.0.0".data = .error .malformedFormat := by decide
example : NewVersion "1.0.0-x-y".data = .error .malformedFormat := by decide
example : NewVersion "1.0.0-unknown".data = .error (.unknownSuffix "unknown".data) := by decide
example : NewVersion "a.1.0".data = .error (.nonNumericComponent 1 "a".data) := by decide
example : NewVersion "1.0-xyz".data = .error (.unknownSuffix "xyz".data) := by decide

/-! ### Helper lemmas: characters, splitting, decimal notation -/

theorem digit_ne_chars {c : Char} (h : c.isDigit = true) :
    c ≠ '-' ∧ c ≠ '+' ∧ c ≠ '.' ∧ c ≠ 'v' := by
  refine ⟨?_, ?_, ?_, ?_⟩ <;> rintro rfl <;> exact absurd h (by decide)

theorem not_mem_of_digits {l : Str} (hd : ∀ c ∈ l, c.isDigit = true) {x : Char}
    (hx : x.isDigit = false) : x ∉ l := by
  intro hmem
  have := hd x hmem
  rw [hx] at this
  exact Bool.false_ne_true this

theorem headD_digit {l : Str} (h : l ≠ []) (hd : ∀ c ∈ l, c.isDigit = true) :
    (l.headD ' ').isDigit = true := by
  cases l with
  | nil => exact absurd rfl h
  | cons c t => simpa using hd c (by simp)

theorem splitChar_of_not_mem (sep : Char) (l : Str) (h : sep ∉ l) :
    splitChar sep l = [l] := by
  induction l with
  | nil => rfl
  | cons c rest ih =>
    have hc : ¬ c = sep := by intro hc; exact h (by simp [hc])
    have hr : sep ∉ rest := by intro hm; exact h (by simp [hm])
    simp [splitChar, hc, ih hr]

theorem splitChar_append (sep : Char) (xs ys : Str) (h : sep ∉ xs) :
    splitChar sep (xs ++ sep :: ys) = xs :: splitChar sep ys := by
  induction xs with
  | nil => simp [splitChar]
  | cons c rest ih =>
    have hc : ¬ c = sep := by intro hc; exact h (by simp [hc])
    have hr : sep ∉ rest := by intro hm; exact h (by simp [hm])
    simp [splitChar, hc, ih hr]

theorem digitChar_lt_spec (d : Nat) (h : d < 10) :
    (digitChar d).isDigit = true ∧ (digitChar d).toNat - 48 = d := by
  interval_cases d <;> exact ⟨by decide, by decide⟩

theorem natDigitsAux_digits (fuel : Nat) : ∀ n, ∀ c ∈ natDigitsAux fuel n, c.isDigit = true := by
  induction fuel with
  | zero => intro n c hc; simp [natDigitsAux] at hc
  | succ fuel ih =>
    intro n c hc
    by_cases hn : n = 0
    · simp [natDigitsAux, hn] at hc
    · simp only [natDigitsAux, if_neg hn, List.mem_append, List.mem_singleton] at hc
      rcases hc with hc | hc
      · exact ih _ c hc
      · rw [hc]
        exact (digitChar_lt_spec (n % 10) (Nat.mod_lt _ (by norm_num))).1

theorem natDigitsAux_fold (fuel : Nat) : ∀ n, n ≤ fuel →
    List.foldl (fun acc c => acc * 10 + (c.toNat - 48)) 0 (natDigitsAux fuel n) = n := by
  induction fuel with
  | zero => intro n hn; interval_cases n; rfl
  | succ fuel ih =>
    intro n hn
    by_cases hn0 : n = 0
    · simp [natDigitsAux, hn0]
    · have hdiv : n / 10 ≤ fuel := by
        have h1 : n / 10 < n := Nat.div_lt_self (Nat.pos_of_ne_zero hn0) (by norm_num)
        omega
      simp only [natDigitsAux, if_neg hn0, List.foldl_append, ih _ hdiv, List.foldl_cons,
        List.foldl_nil]
      have := (digitChar_lt_spec (n % 10) (Nat.mod_lt _ (by norm_num))).2
      rw [this]
      omega

theorem natDigitsAux_ne_nil (fuel n : Nat) (h0 : n ≠ 0) (hf : n ≤ fuel) :
    natDigitsAux fuel n ≠ [] := by
  cases fuel with
  | zero => omega
  | succ fuel => simp [natDigitsAux, h0]

theorem toDecimal_digits (n : Nat) : ∀ c ∈ toDecimal n, c.isDigit = true := by
  unfold toDecimal
  split
  · intro c hc; simp at hc; rw [hc]; decide
  · exact natDigitsAux_digits n n

theorem toDecimal_ne_nil (n : Nat) : toDecimal n ≠ [] := by
  unfold toDecimal
  split
  · simp
  · exact natDigitsAux_ne_nil n n (by assumption) le_rfl

theorem toDecimal_fold (n : Nat) :
    List.foldl (fun acc c => acc * 10 + (c.toNat - 48)) 0 (toDecimal n) = n := by
  unfold toDecimal
  split
  · subst n; rfl
  · exact natDigitsAux_fold n n le_rfl

theorem parseInt64_toDecimal (n : Nat) (h : n < 2 ^ 63) :
    parseInt64 (toDecimal n) = some (n : Int) := by
  have hne := toDecimal_ne_nil n
  have hdig := toDecimal_digits n
  have hhead := headD_digit hne hdig
  have h1 : ¬ (toDecimal n).headD ' ' = '-' := by
    intro hc; rw [hc] at hhead; exact absurd hhead (by decide)
  have h2 : ¬ (toDecimal n).headD ' ' = '+' := by
    intro hc; rw [hc] at hhead; exact absurd hhead (by decide)
  simp only [parseInt64, if_neg hne, h1, h2, or_self, if_false, if_neg hne,
    List.all_eq_true, decide_eq_true_eq]
  rw [if_pos hdig, toDecimal_fold n, if_pos (by omega : n ≤ 2 ^ 63 - 1)]

/-! ### Reduction lemmas for NewVersion on well-shaped inputs -/

theorem newVersion_plain (core : Str) (h5 : 5 ≤ core.length)
    (hv : core.headD ' ' ≠ 'v') (hd : '-' ∉ core) :
    NewVersion core = parseNumbers (false, false, false, false, false) core := by
  have hne : core ≠ [] := by intro h; rw [h] at h5; simp at h5
  have htrim : trimPrefixV core = core := by unfold trimPrefixV; rw [if_neg hv]
  have hsplit : splitChar '-' (trimPrefixV core) = [core] := by
    rw [htrim]; exact splitChar_of_not_mem _ _ hd
  simp only [NewVersion, if_neg hne, if_neg (by omega : ¬ core.length < 5), hsplit]
  norm_num [parseSuffix]

theorem newVersion_v (core : Str) (h4 : 4 ≤ core.length) (hd : '-' ∉ core) :
    NewVersion ('v' :: core) = parseNumbers (false, false, false, false, false) core := by
  have htrim : trimPrefixV ('v' :: core) = core := by simp [trimPrefixV]
  have hsplit : splitChar '-' (trimPrefixV ('v' :: core)) = [core] := by
    rw [htrim]; exact splitChar_of_not_mem _ _ hd
  simp only [NewVersion, List.length_cons, if_neg (by omega : ¬ core.length + 1 < 5), hsplit,
    if_neg (List.cons_ne_nil 'v' core)]
  norm_num [parseSuffix]

theorem suffixFlags_cases {suf : Str} {fl : Bool × Bool × Bool × Bool × Bool}
    (h : suffixFlags suf = some fl) :
    suf ∈ ["dev".data, "patch".data, "p".data, "alpha".data, "a".data,
           "beta".data, "b".data, "RC".data] := by
  unfold suffixFlags at h
  split_ifs at h with h1 h2 h3 h4 h5
  · simp [h1]
  · rcases h2 with h2 | h2 <;> simp [h2]
  · rcases h3 with h3 | h3 <;> simp [h3]
  · rcases h4 with h4 | h4 <;> simp [h4]
  · simp [h5]

theorem suffixFlags_no_dash {suf : Str} {fl : Bool × Bool × Bool × Bool × Bool}
    (h : suffixFlags suf = some fl) : '-' ∉ suf := by
  have hmem := suffixFlags_cases h
  fin_cases hmem <;> decide

theorem newVersion_v_suffix (core suf : Str) (fl : Bool × Bool × Bool × Bool × Bool)
    (hfl : suffixFlags suf = some fl) (hd : '-' ∉ core) (h4 : 4 ≤ core.length) :
    NewVersion ('v' :: (core ++ '-' :: suf)) = parseNumbers fl core := by
  have htrim : trimPrefixV ('v' :: (core ++ '-' :: suf)) = core ++ '-' :: suf := by
    simp [trimPrefixV]
  have hsplit : splitChar '-' (trimPrefixV ('v' :: (core ++ '-' :: suf))) = [core, suf] := by
    rw [htrim, splitChar_append _ _ _ hd, splitChar_of_not_mem _ _ (suffixFlags_no_dash hfl)]
  have hlen : ¬ ('v' :: (core ++ '-' :: suf)).length < 5 := by
    simp only [List.length_cons, List.length_append]
    omega
  simp only [NewVersion, if_neg (List.cons_ne_nil _ _), if_neg hlen, hsplit]
  norm_num [parseSuffix, hfl]

theorem parseNumbers_decimal (fl : Bool × Bool × Bool × Bool × Bool) (a b c : Nat)
    (ha : a < 2 ^ 63) (hb : b < 2 ^ 63) (hc : c < 2 ^ 63) :
    parseNumbers fl (toDecimal a ++ '.' :: (toDecimal b ++ '.' :: toDecimal c))
      = .ok ⟨a, b, c, fl.1, fl.2.1, fl.2.2.1, fl.2.2.2.1, fl.2.2.2.2⟩ := by
  have hdotA : '.' ∉ toDecimal a := not_mem_of_digits (toDecimal_digits a) (by decide)
  have hdotB : '.' ∉ toDecimal b := not_mem_of_digits (toDecimal_digits b) (by decide)
  have hdotC : '.' ∉ toDecimal c := not_mem_of_digits (toDecimal_digits c) (by decide)
  have hsplit : splitChar '.' (toDecimal a ++ '.' :: (toDecimal b ++ '.' :: toDecimal c))
      = [toDecimal a, toDecimal b, toDecimal c] := by
    rw [splitChar_append _ _ _ hdotA, splitChar_append _ _ _ hdotB,
      splitChar_of_not_mem _ _ hdotC]
  simp only [parseNumbers, hsplit]
  norm_num [parseInt64_toDecimal a ha, parseInt64_toDecimal b hb, parseInt64_toDecimal c hc]

theorem headD_append_of_ne_nil {xs : Str} (ys : Str) (h : xs ≠ []) (d : Char) :
    (xs ++ ys).headD d = xs.headD d := by
  cases xs with
  | nil => exact absurd rfl h
  | cons c t => simp

theorem dash_not_mem_core (a b c : Nat) :
    '-' ∉ toDecimal a ++ '.' :: (toDecimal b ++ '.' :: toDecimal c) := by
  have hA := not_mem_of_digits (toDecimal_digits a) (x := '-') (by decide)
  have hB := not_mem_of_digits (toDecimal_digits b) (x := '-') (by decide)
  have hC := not_mem_of_digits (toDecimal_digits c) (x := '-') (by decide)
  intro h
  simp only [List.mem_append, List.mem_cons] at h
  rcases h with h | h | h | h | h
  · exact hA h
  · exact absurd h (by decide)
  · exact hB h
  · exact absurd h (by decide)
  · exact hC h

theorem core_len (a b c : Nat) :
    5 ≤ (toDecimal a ++ '.' :: (toDecimal b ++ '.' :: toDecimal c)).length := by
  have hA : 0 < (toDecimal a).length := List.length_pos.mpr (toDecimal_ne_nil a)
  have hB : 0 < (toDecimal b).length := List.length_pos.mpr (toDecimal_ne_nil b)
  have hC : 0 < (toDecimal c).length := List.length_pos.mpr (toDecimal_ne_nil c)
  simp only [List.length_append, List.length_cons]
  omega

theorem core_head_digit (a b c : Nat) :
    ((toDecimal a ++ '.' :: (toDecimal b ++ '.' :: toDecimal c)).headD ' ').isDigit = true := by
  rw [headD_append_of_ne_nil _ (toDecimal_ne_nil a)]
  exact headD_digit (toDecimal_ne_nil a) (toDecimal_digits a)

/-- Claim C5 (amended with the int64 bound): parsing the decimal string
"X.Y.Z", with or without a leading "v", succeeds with the three numeric
fields and no suffix flag, provided each component fits in an int64. -/
theorem newVersion_numeric_success (a b c : Nat)
    (ha : a < 2 ^ 63) (hb : b < 2 ^ 63) (hc : c < 2 ^ 63) :
    NewVersion (toDecimal a ++ '.' :: (toDecimal b ++ '.' :: toDecimal c))
      = .ok ⟨a, b, c, false, false, false, false, false⟩
  ∧ NewVersion ('v' :: (toDecimal a ++ '.' :: (toDecimal b ++ '.' :: toDecimal c)))
      = .ok ⟨a, b, c, false, false, false, false, false⟩ := by
  have hv : (toDecimal a ++ '.' :: (toDecimal b ++ '.' :: toDecimal c)).headD ' ' ≠ 'v' :=
    (digit_ne_chars (core_head_digit a b c)).2.2.2
  constructor
  · rw [newVersion_plain _ (core_len a b c) hv (dash_not_mem_core a b c)]
    exact parseNumbers_decimal _ a b c ha hb hc
  · rw [newVersion_v _ (by have := core_len a b c; omega) (dash_not_mem_core a b c)]
    exact parseNumbers_decimal _ a b c ha hb hc

/-- Claim C5 witness: the amended theorem applied at X=1, Y=2, Z=3. -/
theorem newVersion_numeric_success_witness :
    NewVersion "1.2.3".data = .ok ⟨1, 2, 3, false, false, false, false, false⟩ :=
  (newVersion_numeric_success 1 2 3 (by norm_num) (by norm_num) (by norm_num)).1

/-- Claim C5 counterexample: 2^63 is a non-negative integer written in
decimal, but `NewVersion "9223372036854775808.0.0"` does not succeed: the
int64 parse of the first component fails, so the result is the
part-1-not-a-number error, refuting the claim for every non-negative X. -/
theorem newVersion_numeric_overflow_counterexample :
    NewVersion "9223372036854775808.0.0".data
      = .error (.nonNumericComponent 1 "9223372036854775808".data) := by decide

theorem suffixFlags_le {suf : Str} {f : Bool × Bool × Bool × Bool × Bool}
    (h : suffixFlags suf = some f) :
    f.1.toNat + f.2.1.toNat + f.2.2.1.toNat + f.2.2.2.1.toNat + f.2.2.2.2.toNat ≤ 1 := by
  unfold suffixFlags at h
  split_ifs at h <;> cases h <;> decide

theorem parseSuffix_le {vals : List Str} {fl : Bool × Bool × Bool × Bool × Bool}
    (h : parseSuffix vals = .ok fl) :
    fl.1.toNat + fl.2.1.toNat + fl.2.2.1.toNat + fl.2.2.2.1.toNat + fl.2.2.2.2.toNat ≤ 1 := by
  unfold parseSuffix at h
  split at h
  · split at h
    · next f heq => cases h; exact suffixFlags_le heq
    · cases h
  · cases h; decide

theorem parseNumbers_ok_flags {fl : Bool × Bool × Bool × Bool × Bool} {core : Str}
    {v : Version} (h : parseNumbers fl core = .ok v) :
    v.isDev = fl.1 ∧ v.isPatch = fl.2.1 ∧ v.isAlpha = fl.2.2.1 ∧ v.isBeta = fl.2.2.2.1 ∧
      v.isRC = fl.2.2.2.2 := by
  unfold parseNumbers at h
  simp only [] at h
  split at h
  · cases h
  · split at h
    · cases h
    · split at h
      · cases h
      · split at h
        · cases h
        · cases h; exact ⟨rfl, rfl, rfl, rfl, rfl⟩

theorem newVersion_ok_flags {s : Str} {v : Version} (h : NewVersion s = .ok v) :
    v.isDev.toNat + v.isPatch.toNat + v.isAlpha.toNat + v.isBeta.toNat + v.isRC.toNat ≤ 1 := by
  unfold NewVersion at h
  simp only [] at h
  split at h
  · cases h
  · split at h
    · cases h
    · split at h
      · cases h
      · split at h
        · cases h
        · next fl heq =>
          have h1 := parseSuffix_le heq
          have h2 := parseNumbers_ok_flags h
          rw [h2.1, h2.2.1, h2.2.2.1, h2.2.2.2.1, h2.2.2.2.2]
          exact h1

/-- Claim C6: for each recognized suffix token, parsing "vX.Y.Z-T" sets
exactly the corresponding flag and no other; and every successful parse
has at most one of the five suffix flags set. -/
theorem newVersion_suffix_flags (a b c : Nat)
    (ha : a < 2 ^ 63) (hb : b < 2 ^ 63) (hc : c < 2 ^ 63) :
    (NewVersion ('v' :: ((toDecimal a ++ '.' :: (toDecimal b ++ '.' :: toDecimal c)) ++ '-' :: "dev".data))
       = .ok ⟨a, b, c, true, false, false, false, false⟩)
  ∧ (NewVersion ('v' :: ((toDecimal a ++ '.' :: (toDecimal b ++ '.' :: toDecimal c)) ++ '-' :: "patch".data))
       = .ok ⟨a, b, c, false, true, false, false, false⟩)
  ∧ (NewVersion ('v' :: ((toDecimal a ++ '.' :: (toDecimal b ++ '.' :: toDecimal c)) ++ '-' :: "p".data))
       = .ok ⟨a, b, c, false, true, false, false, false⟩)
  ∧ (NewVersion ('v' :: ((toDecimal a ++ '.' :: (toDecimal b ++ '.' :: toDecimal c)) ++ '-' :: "alpha".data))
       = .ok ⟨a, b, c, false, false, true, false, false⟩)
  ∧ (NewVersion ('v' :: ((toDecimal a ++ '.' :: (toDecimal b ++ '.' :: toDecimal c)) ++ '-' :: "a".data))
       = .ok ⟨a, b, c, false, false, true, false, false⟩)
  ∧ (NewVersion ('v' :: ((toDecimal a ++ '.' :: (toDecimal b ++ '.' :: toDecimal c)) ++ '-' :: "beta".data))
       = .ok ⟨a, b, c, false, false, false, true, false⟩)
  ∧ (NewVersion ('v' :: ((toDecimal a ++ '.' :: (toDecimal b ++ '.' :: toDecimal c)) ++ '-' :: "b".data))
       = .ok ⟨a, b, c, false, false, false, true, false⟩)
  ∧ (NewVersion ('v' :: ((toDecimal a ++ '.' :: (toDecimal b ++ '.' :: toDecimal c)) ++ '-' :: "RC".data))
       = .ok ⟨a, b, c, false, false, false, false, true⟩)
  ∧ (∀ s : Str, ∀ v : Version, NewVersion s = .ok v →
      v.isDev.toNat + v.isPatch.toNat + v.isAlpha.toNat + v.isBeta.toNat + v.isRC.toNat ≤ 1) := by
  have hd := dash_not_mem_core a b c
  have h4 : 4 ≤ (toDecimal a ++ '.' :: (toDecimal b ++ '.' :: toDecimal c)).length := by
    have := core_len a b c; omega
  refine ⟨?_, ?_, ?_, ?_, ?_, ?_, ?_, ?_, fun s v h => newVersion_ok_flags h⟩
  · rw [newVersion_v_suffix _ _ (true, false, false, false, false) (by decide) hd h4]
    exact parseNumbers_decimal _ a b c ha hb hc
  · rw [newVersion_v_suffix _ _ (false, true, false, false, false) (by decide) hd h4]
    exact parseNumbers_decimal _ a b c ha hb hc
  · rw [newVersion_v_suffix _ _ (false, true, false, false, false) (by decide) hd h4]
    exact parseNumbers_decimal _ a b c ha hb hc
  · rw [newVersion_v_suffix _ _ (false, false, true, false, false) (by decide) hd h4]
    exact parseNumbers_decimal _ a b c ha hb hc
  · rw [newVersion_v_suffix _ _ (false, false, true, false, false) (by decide) hd h4]
    exact parseNumbers_decimal _ a b c ha hb hc
  · rw [newVersion_v_suffix _ _ (false, false, false, true, false) (by decide) hd h4]
    exact parseNumbers_decimal _ a b c ha hb hc
  · rw [newVersion_v_suffix _ _ (false, false, false, true, false) (by decide) hd h4]
    exact parseNumbers_decimal _ a b c ha hb hc
  · rw [newVersion_v_suffix _ _ (false, false, false, false, true) (by decide) hd h4]
    exact parseNumbers_decimal _ a b c ha hb hc

/-- Claim C6 witness: the theorem applied at X=1, Y=2, Z=3 for the "dev"
token, plus the at-most-one-flag invariant on that concrete parse. -/
theorem newVersion_suffix_flags_witness :
    NewVersion "v1.2.3-dev".data = .ok ⟨1, 2, 3, true, false, false, false, false⟩ :=
  (newVersion_suffix_flags 1 2 3 (by norm_num) (by norm_num) (by norm_num)).1

/-- Claim C2 (amended): for every NON-EMPTY input, `NewVersion` fails with
the malformed-format error when the string is shorter than 5 characters,
or when it has more than one "-"-separated suffix segment, or when — the
"-"-separated suffix segment being absent or a RECOGNIZED token — the
pre-suffix part does not decompose into exactly three dot-separated
components.  (The empty string fails with the empty-input error, and an
unrecognized suffix fails with the unknown-suffix error even when the dot
decomposition is also wrong, since the suffix switch runs first.) -/
theorem newVersion_malformed_spec (s : Str) (hne : s ≠ []) :
    (s.length < 5 → NewVersion s = .error .malformedFormat)
  ∧ (2 < (splitChar '-' (trimPrefixV s)).length → NewVersion s = .error .malformedFormat)
  ∧ (∀ rest : Str, (splitChar '-' (trimPrefixV s) = [rest]
        ∨ ∃ suf fl, splitChar '-' (trimPrefixV s) = [rest, suf] ∧ suffixFlags suf = some fl) →
      (splitChar '.' rest).length ≠ 3 → NewVersion s = .error .malformedFormat) := by
  refine ⟨?_, ?_, ?_⟩
  · intro h5
    unfold NewVersion
    rw [if_neg hne, if_pos h5]
  · intro hlen
    by_cases h5 : s.length < 5
    · unfold NewVersion; rw [if_neg hne, if_pos h5]
    · unfold NewVersion
      simp only []
      rw [if_neg hne, if_neg h5, if_pos hlen]
  · intro rest hcase h3
    by_cases h5 : s.length < 5
    · unfold NewVersion; rw [if_neg hne, if_pos h5]
    · rcases hcase with hone | ⟨suf, fl, htwo, hfl⟩
      · have hsuf : parseSuffix [rest] = .ok (false, false, false, false, false) := by
          norm_num [parseSuffix]
        unfold NewVersion
        simp only []
        rw [if_neg hne, if_neg h5, hone]
        norm_num [hsuf, parseNumbers, h3]
      · have hsuf : parseSuffix [rest, suf] = .ok fl := by
          norm_num [parseSuffix, hfl]
        unfold NewVersion
        simp only []
        rw [if_neg hne, if_neg h5, htwo]
        norm_num [hsuf, parseNumbers, h3]

/-- Claim C2 witness: the amended theorem applied at "1.0", which is
shorter than 5 characters. -/
theorem newVersion_malformed_spec_witness :
    NewVersion "1.0".data = .error .malformedFormat :=
  (newVersion_malformed_spec "1.0".data (by decide)).1 (by decide)

/-- Claim C2 counterexample: the empty string is shorter than the minimum
viable length yet fails with the empty-input error, and "1.0-xyz" does not
decompose into three dot-separated components after suffix stripping yet
fails with the unknown-suffix error; neither is the malformed-format
error the claim requires. -/
theorem newVersion_malformed_counterexample :
    NewVersion [] = .error .emptyInput
  ∧ NewVersion [] ≠ .error .malformedFormat
  ∧ ([] : Str).length < 5
  ∧ NewVersion "1.0-xyz".data = .error (.unknownSuffix "xyz".data)
  ∧ NewVersion "1.0-xyz".data ≠ .error .malformedFormat
  ∧ splitChar '-' (trimPrefixV "1.0-xyz".data) = ["1.0".data, "xyz".data]
  ∧ (splitChar '.' "1.0".data).length ≠ 3 := by
  refine ⟨by decide, by decide, by decide, by decide, by decide, by decide, by decide⟩

/-! ### pkg/composer: data model -/

/-- `pkg/composer/composer.go`: the `Autoload` struct.  The Go
`map[string]string` for psr-4 is modelled as an association list whose
keys are pairwise distinct; the `for range` loop over the map becomes a
fold over the list (iteration-order independence is proved below). -/
structure Autoload where
  psr4 : List (Str × Str)
  files : List Str
deriving DecidableEq

/-- One iteration of the `for psrName, psrPath := range a.Psr4` loop of
`Autoload.Psr4PathForNamespace`: keep the entry when its key is a prefix
of the (augmented) namespace and strictly longer than the best key so
far. -/
def psr4Step (name : Str) (acc : Str × Str) (e : Str × Str) : Str × Str :=
  if e.1.isPrefixOf name = true ∧ acc.1.length < e.1.length then e else acc

/-- `Autoload.Psr4PathForNamespace`: append the separator to the
namespace, scan the psr-4 table keeping the longest key that is a prefix
of the augmented name, and return `("", false)` when the resulting path
is empty (the Go `foundPath == ""` check). -/
def Autoload.Psr4PathForNamespace (a : Autoload) (name : Str) : Str × Bool :=
  let aug := name ++ ['\\']
  let best := a.psr4.foldl (psr4Step aug) ([], [])
  if best.2 = [] then ([], false) else (best.2, true)

/-- `pkg/composer/composer.go`: the `ConfigRepo` struct. -/
structure ConfigRepo where
  type : Str
  url : Str
  resolved : Bool
deriving DecidableEq

/-- `pkg/composer/composer.go`: the `Config` struct.  The `Checks` field
(a list of Go function values) cannot be a field of a first-order
structure used in its own argument type, so the check list is passed to
`Config.CheckConfig` as an explicit argument instead. -/
structure Config where
  name : Str
  description : Str
  rawVersion : Str
  version : Option Version
  type : Str
  require : List (Str × Str)
  requireDev : List (Str × Str)
  reps : List ConfigRepo
  autoload : Autoload
  autoloadDev : Autoload
  path : Str
  rootDir : Str
deriving DecidableEq

/-- The zero `Config` value (`&Config{}` in Go). -/
def emptyConfig : Config :=
  ⟨[], [], [], none, [], [], [], [], ⟨[], []⟩, ⟨[], []⟩, [], []⟩

/-- Model of Go `filepath.Base` (Unix): "." for the empty path, strip
trailing slashes, then the last path element ("/" when nothing is
left). -/
def filepathBase (p : Str) : Str :=
  if p = [] then ['.']
  else
    let q := (p.reverse.dropWhile (fun c => c = '/')).reverse
    if q = [] then ['/']
    else (q.reverse.takeWhile (fun c => ¬ c = '/')).reverse

/-- `Config.Psr4PathForNamespace`: look the namespace up in the primary
autoload table, then in the dev table, prefixing a hit with the base name
of the directory holding the manifest. -/
def Config.Psr4PathForNamespace (c : Config) (name : Str) : Str × Bool :=
  let dir := filepathBase c.rootDir
  let r := c.autoload.Psr4PathForNamespace name
  if r.2 then (dir ++ '/' :: r.1, true)
  else
    let rd := c.autoloadDev.Psr4PathForNamespace name
    if rd.2 then (dir ++ '/' :: rd.1, true)
    else ([], false)

/-! ### pkg/composer: errors and pipeline -/

/-- `pkg/composer/errors.go`: the `ConfigError` struct. -/
structure ConfigError where
  msg : Str
  critical : Bool
deriving DecidableEq

/-- `ConfigError.Error`: "<critical> " prefix when critical, then the
message. -/
def ConfigError.Error (ce : ConfigError) : Str :=
  (if ce.critical then "<critical> ".data else []) ++ ce.msg

/-- `pkg/composer/errors.go`: the `ConfigErrors` struct.  The Go field
`Config *Config` is a nullable pointer, modelled as `Option Config`
(`none` is a nil pointer). -/
structure ConfigErrors where
  config : Option Config
  errors : List ConfigError
deriving DecidableEq

/-- `NewConfigErrors`: builds the error set WITHOUT setting the `Config`
back-reference (it stays nil, as in the Go source). -/
def NewConfigErrors (errors : List ConfigError) : ConfigErrors :=
  ⟨none, errors⟩

/-- `ConfigErrors.Add`. -/
def ConfigErrors.Add (ce : ConfigErrors) (err : ConfigError) : ConfigErrors :=
  { ce with errors := ce.errors ++ [err] }

/-- `ConfigErrors.Len`. -/
def ConfigErrors.Len (ce : ConfigErrors) : Nat := ce.errors.length

/-- `ConfigErrors.Error`: one "config <path>: <finding>\n" line per
stored error.  Each loop iteration reads `ce.Config.Path`; when the
`Config` pointer is nil this is a nil-pointer dereference (a Go runtime
panic), modelled by the `none` result. -/
def ConfigErrors.Error (ce : ConfigErrors) : Option Str :=
  ce.errors.foldl
    (fun res e =>
      match res, ce.config with
      | some r, some cfg =>
          some (r ++ "config ".data ++ cfg.path ++ ": ".data ++ e.Error ++ ['\n'])
      | _, _ => none)
    (some [])

/-- The error-message strings produced by the `fmt.Errorf` calls of
`NewVersion`, as consumed by the loader (`err.Error()` in Go). -/
def VersionError.message : VersionError → Str
  | .emptyInput => "version is empty".data
  | .malformedFormat => "version must be in the format [v]X.Y.Z[-suffix]".data
  | .unknownSuffix s =>
      "unknown version suffix ".data ++ Char.ofNat 39 :: s ++ [Char.ofNat 39]
  | .nonNumericComponent idx s =>
      "part ".data ++ toDecimal idx ++ " (".data ++ Char.ofNat 39 :: s
        ++ Char.ofNat 39 :: ") of the version must be a number".data

/-- `NewConfigFromData`, after the external `json.Unmarshal` and
`filepath.Abs`/`filepath.Dir` collaborator steps: the decode outcome is
passed as `Except Str Config` (the raw decoded fields, version not yet
parsed), and the computed absolute path and its directory are passed in.
A decode failure yields the empty placeholder config and a critical
one-error list (with nil config back-reference); a version-parse failure
is recorded as a single non-critical finding and the populated model is
still returned. -/
def NewConfigFromData (decoded : Except Str Config) (absPath rootDir : Str) :
    Config × Option ConfigErrors :=
  match decoded with
  | .error msg => (emptyConfig, some (NewConfigErrors [⟨msg, true⟩]))
  | .ok c0 =>
    let vres := NewVersion c0.rawVersion
    let c1 : Config :=
      { c0 with
        version := match vres with | .ok v => some v | .error _ => none,
        path := absPath,
        rootDir := rootDir }
    let errs : List ConfigError :=
      match vres with
      | .ok _ => []
      | .error e => [⟨e.message, false⟩]
    if errs.length ≠ 0 then (c1, some ⟨some c1, errs⟩) else (c1, none)

/-- `Config.CheckConfig`: run every registered check in order, collect
the non-nil findings into a fresh `ConfigErrors` whose back-reference is
the config itself, and return nil when no finding was produced.  The
check list is the `c.Checks` field of the Go struct, passed explicitly
here (see `Config`). -/
def Config.CheckConfig (c : Config) (checks : List (Config → Option ConfigError)) :
    Option ConfigErrors :=
  let errors := checks.foldl
    (fun acc check =>
      match check c with
      | some err => acc.Add err
      | none => acc)
    ⟨some c, []⟩
  if errors.Len = 0 then none else some errors

/-! ### pkg/composer: dependency resolution -/

/-- One step of the stack interpretation of Go `path.Clean`: skip empty
and "." components, let ".." pop a non-".." entry (or vanish at the root,
or pile up when relative), push everything else. -/
def cleanStack (rooted : Bool) : List Str → List Str → List Str
  | [], acc => acc.reverse
  | comp :: rest, acc =>
    if comp = [] ∨ comp = ['.'] then cleanStack rooted rest acc
    else if comp = ['.', '.'] then
      match acc with
      | top :: accRest =>
        if top = ['.', '.'] then cleanStack rooted rest (comp :: top :: accRest)
        else cleanStack rooted rest accRest
      | [] =>
        if rooted then cleanStack rooted rest []
        else cleanStack rooted rest [comp]
    else cleanStack rooted rest (comp :: acc)

/-- Model of Go `filepath.Clean` (Unix `path.Clean`): lexical
normalization — collapse multiple slashes, drop "." components, resolve
".." against the stack, keep leading ".." segments of relative paths,
return "." for an empty result ("/" when rooted). -/
def filepathClean (p : Str) : Str :=
  if p = [] then ['.']
  else
    let rooted := p.headD ' ' = '/'
    let comps := cleanStack rooted (splitChar '/' p) []
    let joined := List.intercalate ['/'] comps
    if rooted then
      if joined = [] then ['/'] else '/' :: joined
    else
      if joined = [] then ['.'] else joined

/-- Model of Go `filepath.Join(a, b)` (Unix): empty elements are skipped,
the rest joined with "/" and cleaned; all-empty input gives "". -/
def filepathJoin (a b : Str) : Str :=
  if a = [] ∧ b = [] then []
  else if a = [] then filepathClean b
  else if b = [] then filepathClean a
  else filepathClean (a ++ '/' :: b)

/-- Model of Go `filepath.ToSlash` on Unix: the separator is already
'/', so this is the identity. -/
def filepathToSlash (p : Str) : Str := p

/-- `ConfigRepo.ResolveUrl`: no-op when already resolved or when the
repository is not of the local "path" type; otherwise clean-join the url
onto the base path, normalize slashes and mark the entry resolved. -/
def ConfigRepo.ResolveUrl (c : ConfigRepo) (path : Str) : ConfigRepo :=
  if c.resolved then c
  else if ¬ c.type = "path".data then c
  else
    { c with
      url := filepathToSlash (filepathClean (filepathJoin path c.url)),
      resolved := true }

example : ConfigRepo.ResolveUrl ⟨"path".data, "../lib".data, false⟩ "/proj/app".data
    = ⟨"path".data, "/proj/lib".data, true⟩ := by decide
example : filepathClean "/a//b/./c/../d".data = "/a/b/d".data := by decide
example : filepathClean "../../x".data = "../../x".data := by decide
example : filepathBase "/proj/app".data = "app".data := by decide
example : filepathBase "/".data = "/".data := by decide
example : filepathBase [] = ".".data := by decide
example : Autoload.Psr4PathForNamespace ⟨[("My\\Core\\".data, "src".data)], []⟩ "My\\Core".data
    = ("src".data, true) := by decide
example : Autoload.Psr4PathForNamespace ⟨[("My\\Core\\".data, "src".data)], []⟩ "My\\Core\\Utils".data
    = ("src".data, true) := by decide
example : Autoload.Psr4PathForNamespace ⟨[("My\\Core\\".data, "src".data)], []⟩ "My\\Other".data
    = ([], false) := by decide
example : Autoload.Psr4PathForNamespace ⟨[("My\\".data, "a".data), ("My\\Core\\".data, "b".data)], []⟩
    "My\\Core\\Utils".data = ("b".data, true) := by decide

/-! ### PSR-4 lookup: characterization of the fold -/

theorem isPrefixOf_eq {l1 l2 : Str} : l1.isPrefixOf l2 = true ↔ l1 <+: l2 :=
  List.isPrefixOf_iff_prefix

theorem psr4Step_mono (name : Str) (acc e : Str × Str) :
    acc.1.length ≤ (psr4Step name acc e).1.length := by
  unfold psr4Step
  split
  · next h => exact le_of_lt h.2
  · exact le_rfl

theorem foldl_psr4Step_mono (name : Str) (l : List (Str × Str)) :
    ∀ acc, acc.1.length ≤ (l.foldl (psr4Step name) acc).1.length := by
  induction l with
  | nil => intro acc; exact le_rfl
  | cons e rest ih =>
    intro acc
    rw [List.foldl_cons]
    exact le_trans (psr4Step_mono name acc e) (ih (psr4Step name acc e))

theorem foldl_psr4Step_mem (name : Str) (l : List (Str × Str)) :
    ∀ acc, l.foldl (psr4Step name) acc = acc
    ∨ (l.foldl (psr4Step name) acc ∈ l
       ∧ (l.foldl (psr4Step name) acc).1.isPrefixOf name = true
       ∧ acc.1.length < (l.foldl (psr4Step name) acc).1.length) := by
  induction l with
  | nil => intro acc; exact Or.inl rfl
  | cons e rest ih =>
    intro acc
    rw [List.foldl_cons]
    by_cases hc : e.1.isPrefixOf name = true ∧ acc.1.length < e.1.length
    · have hstep : psr4Step name acc e = e := by unfold psr4Step; rw [if_pos hc]
      rw [hstep]
      rcases ih e with h | ⟨hmem, hpre, hlt⟩
      · rw [h]
        exact Or.inr ⟨List.mem_cons_self e rest, hc.1, hc.2⟩
      · exact Or.inr ⟨List.mem_cons_of_mem e hmem, hpre, lt_trans hc.2 hlt⟩
    · have hstep : psr4Step name acc e = acc := by unfold psr4Step; rw [if_neg hc]
      rw [hstep]
      rcases ih acc with h | ⟨hmem, hpre, hlt⟩
      · exact Or.inl h
      · exact Or.inr ⟨List.mem_cons_of_mem e hmem, hpre, hlt⟩

theorem foldl_psr4Step_dom (name : Str) (l : List (Str × Str)) :
    ∀ acc, ∀ e ∈ l, e.1.isPrefixOf name = true →
      e.1.length ≤ (l.foldl (psr4Step name) acc).1.length := by
  induction l with
  | nil => intro acc e he; exact absurd he (List.not_mem_nil e)
  | cons f rest ih =>
    intro acc e he hpre
    rw [List.foldl_cons]
    rcases List.mem_cons.mp he with heq | hmem
    · subst heq
      by_cases hc : e.1.isPrefixOf name = true ∧ acc.1.length < e.1.length
      · have hstep : psr4Step name acc e = e := by unfold psr4Step; rw [if_pos hc]
        rw [hstep]
        exact foldl_psr4Step_mono name rest e
      · have hle : e.1.length ≤ acc.1.length := by
          by_contra hlt
          push_neg at hlt
          exact hc ⟨hpre, hlt⟩
        exact le_trans hle
          (le_trans (psr4Step_mono name acc e) (foldl_psr4Step_mono name rest _))
    · exact ih (psr4Step name acc f) e hmem hpre

theorem psr4_all_short (a : Autoload) (name : Str)
    (h : ∀ e ∈ a.psr4, e.1.isPrefixOf (name ++ ['\\']) = true → e.1 = []) :
    a.Psr4PathForNamespace name = ([], false) := by
  unfold Autoload.Psr4PathForNamespace
  simp only []
  rcases foldl_psr4Step_mem (name ++ ['\\']) a.psr4 ([], []) with hr | ⟨hmem, hpre, hlt⟩
  · rw [hr]
    rfl
  · have hkey := h _ hmem hpre
    rw [hkey] at hlt
    exact absurd hlt (by simp)

theorem psr4_best (a : Autoload) (name : Str) (e : Str × Str)
    (hnd : (a.psr4.map Prod.fst).Nodup)
    (he : e ∈ a.psr4) (hpre : e.1.isPrefixOf (name ++ ['\\']) = true)
    (hmax : ∀ f ∈ a.psr4, f.1.isPrefixOf (name ++ ['\\']) = true → f.1.length ≤ e.1.length)
    (hne : e.1 ≠ []) :
    a.Psr4PathForNamespace name = (if e.2 = [] then ([], false) else (e.2, true)) := by
  have hdom := foldl_psr4Step_dom (name ++ ['\\']) a.psr4 ([], []) e he hpre
  rcases foldl_psr4Step_mem (name ++ ['\\']) a.psr4 ([], []) with hr | ⟨hmem, hpre2, _⟩
  · rw [hr] at hdom
    simp only [List.length_nil, Nat.le_zero, List.length_eq_zero] at hdom
    exact absurd hdom hne
  · have hlen : (a.psr4.foldl (psr4Step (name ++ ['\\'])) ([], [])).1.length = e.1.length :=
      le_antisymm (hmax _ hmem hpre2) hdom
    have hkey : (a.psr4.foldl (psr4Step (name ++ ['\\'])) ([], [])).1 = e.1 :=
      List.IsPrefix.eq_of_length
        (List.prefix_of_prefix_length_le (isPrefixOf_eq.mp hpre2) (isPrefixOf_eq.mp hpre)
          (le_of_eq hlen))
        hlen
    have heq : a.psr4.foldl (psr4Step (name ++ ['\\'])) ([], []) = e :=
      List.inj_on_of_nodup_map hnd hmem he hkey
    unfold Autoload.Psr4PathForNamespace
    simp only []
    rw [heq]

theorem exists_longest {α : Type} (f : α → Nat) (P : α → Prop) :
    ∀ l : List α, (∃ e ∈ l, P e) → ∃ m ∈ l, P m ∧ ∀ e ∈ l, P e → f e ≤ f m := by
  intro l
  induction l with
  | nil => rintro ⟨e, he, _⟩; exact absurd he (List.not_mem_nil e)
  | cons a rest ih =>
    rintro ⟨e, he, hPe⟩
    by_cases hrest : ∃ x ∈ rest, P x
    · obtain ⟨m, hm, hPm, hmax⟩ := ih hrest
      by_cases hPa : P a ∧ f m < f a
      · refine ⟨a, List.mem_cons_self a rest, hPa.1, ?_⟩
        intro x hx hPx
        rcases List.mem_cons.mp hx with heq | hx
        · rw [heq]
        · exact le_trans (hmax x hx hPx) (le_of_lt hPa.2)
      · refine ⟨m, List.mem_cons_of_mem a hm, hPm, ?_⟩
        intro x hx hPx
        rcases List.mem_cons.mp hx with heq | hx
        · subst heq
          by_contra hlt
          push_neg at hlt
          exact hPa ⟨hPx, hlt⟩
        · exact hmax x hx hPx
    · have heqa : e = a := by
        rcases List.mem_cons.mp he with heq | hmem
        · exact heq
        · exact absurd ⟨e, hmem, hPe⟩ hrest
      subst heqa
      refine ⟨e, List.mem_cons_self e rest, hPe, ?_⟩
      intro x hx hPx
      rcases List.mem_cons.mp hx with heq | hx
      · rw [heq]
      · exact absurd ⟨x, hx, hPx⟩ hrest

theorem psr4_perm (a a' : Autoload) (name : Str)
    (hnd : (a.psr4.map Prod.fst).Nodup) (hp : a'.psr4.Perm a.psr4) :
    a'.Psr4PathForNamespace name = a.Psr4PathForNamespace name := by
  by_cases hex : ∃ e ∈ a.psr4, e.1.isPrefixOf (name ++ ['\\']) = true ∧ e.1 ≠ []
  · obtain ⟨e0, he0, hp0, hne0⟩ := hex
    obtain ⟨m, hm, hpm, hmax⟩ :=
      exists_longest (fun e => e.1.length)
        (fun e => e.1.isPrefixOf (name ++ ['\\']) = true) a.psr4 ⟨e0, he0, hp0⟩
    have hnem : m.1 ≠ [] := by
      intro hnil
      have hle := hmax e0 he0 hp0
      rw [hnil] at hle
      simp only [List.length_nil, Nat.le_zero, List.length_eq_zero] at hle
      exact hne0 hle
    have hnd' : (a'.psr4.map Prod.fst).Nodup := (hp.map Prod.fst).nodup_iff.mpr hnd
    have h1 := psr4_best a name m hnd hm hpm hmax hnem
    have h2 := psr4_best a' name m hnd' (hp.mem_iff.mpr hm) hpm
      (fun f hf hpf => hmax f (hp.mem_iff.mp hf) hpf) hnem
    rw [h1, h2]
  · push_neg at hex
    rw [psr4_all_short a name hex,
      psr4_all_short a' name (fun e he hpre => hex e (hp.mem_iff.mp he) hpre)]

/-- Claim C1 (amended): the lookup appends the separator and is a
deterministic, iteration-order-independent function of the table
contents; with no key a prefix of the augmented query the result is
not-found; when the longest prefix key is non-empty and its path is
non-empty that path is returned as found; and when the longest prefix
key is the empty string or its path is the empty string the result is
not-found (the claim as frozen wrongly promises the longest key's path,
found, in those last two situations). -/
theorem psr4PathForNamespace_longest_spec (a : Autoload) (name : Str)
    (hnd : (a.psr4.map Prod.fst).Nodup) :
    (∀ a' : Autoload, a'.psr4.Perm a.psr4 →
        a'.Psr4PathForNamespace name = a.Psr4PathForNamespace name)
  ∧ ((∀ e ∈ a.psr4, e.1.isPrefixOf (name ++ ['\\']) = false) →
        a.Psr4PathForNamespace name = ([], false))
  ∧ (∀ e ∈ a.psr4, e.1.isPrefixOf (name ++ ['\\']) = true →
      (∀ f ∈ a.psr4, f.1.isPrefixOf (name ++ ['\\']) = true → f.1.length ≤ e.1.length) →
      e.1 ≠ [] → e.2 ≠ [] → a.Psr4PathForNamespace name = (e.2, true))
  ∧ (∀ e ∈ a.psr4, e.1.isPrefixOf (name ++ ['\\']) = true →
      (∀ f ∈ a.psr4, f.1.isPrefixOf (name ++ ['\\']) = true → f.1.length ≤ e.1.length) →
      (e.1 = [] ∨ e.2 = []) → a.Psr4PathForNamespace name = ([], false)) := by
  refine ⟨fun a' hp => psr4_perm a a' name hnd hp, ?_, ?_, ?_⟩
  · intro hnone
    refine psr4_all_short a name (fun e he hpre => ?_)
    rw [hnone e he] at hpre
    exact absurd hpre (by simp)
  · intro e he hpre hmax hne hval
    rw [psr4_best a name e hnd he hpre hmax hne, if_neg hval]
  · intro e he hpre hmax hcase
    rcases hcase with hnil | hval
    · refine psr4_all_short a name (fun f hf hpf => ?_)
      have hle := hmax f hf hpf
      rw [hnil] at hle
      simpa using hle
    · by_cases hnil : e.1 = []
      · refine psr4_all_short a name (fun f hf hpf => ?_)
        have hle := hmax f hf hpf
        rw [hnil] at hle
        simpa using hle
      · rw [psr4_best a name e hnd he hpre hmax hnil, if_pos hval]

/-- Claim C1 witness: the amended theorem applied to the two-entry table
of the spec example; the longer key "My\Core\" wins over "My\". -/
theorem psr4PathForNamespace_longest_spec_witness :
    Autoload.Psr4PathForNamespace
      ⟨[("My\\".data, "a".data), ("My\\Core\\".data, "b".data)], []⟩
      "My\\Core\\Utils".data = ("b".data, true) :=
  (psr4PathForNamespace_longest_spec
      ⟨[("My\\".data, "a".data), ("My\\Core\\".data, "b".data)], []⟩
      "My\\Core\\Utils".data (by decide)).2.2.1
    ("My\\Core\\".data, "b".data) (by decide) (by decide) (by decide) (by decide) (by decide)

/-- Claim C1 counterexample: in the first table the keys "My\" and
"My\Core\" are both prefixes of the augmented query "My\Core\" yet the
lookup reports not-found, because the longest key's path is empty; in
the second the only key (the empty string) is a prefix and maps to "p",
yet the lookup reports not-found instead of returning "p".  Both refute
the frozen claim that the longest prefix key's path is returned as found
whenever some key is a prefix. -/
theorem psr4PathForNamespace_claim_counterexample :
    (Autoload.Psr4PathForNamespace
        ⟨[("My\\".data, "x".data), ("My\\Core\\".data, [])], []⟩ "My\\Core".data = ([], false)
      ∧ ("My\\Core\\".data).isPrefixOf ("My\\Core".data ++ ['\\']) = true
      ∧ (("My\\Core\\".data, ([] : Str)) ∈
          ([("My\\".data, "x".data), ("My\\Core\\".data, ([] : Str))] : List (Str × Str))))
  ∧ (Autoload.Psr4PathForNamespace ⟨[(([] : Str), "p".data)], []⟩ "X".data = ([], false)
      ∧ (([] : Str)).isPrefixOf ("X".data ++ ['\\']) = true
      ∧ ((([] : Str), "p".data) ∈ ([(([] : Str), "p".data)] : List (Str × Str)))) := by
  exact ⟨⟨by decide, by decide, by decide⟩, ⟨by decide, by decide, by decide⟩⟩

/-- Claim C10: whenever the longest table key that is a prefix of the
augmented query maps to the empty path, the lookup reports not-found,
even if a shorter key with a non-empty path also matches, because the
Go code signals not-found by testing the found PATH against "". -/
theorem psr4PathForNamespace_empty_path_not_found (a : Autoload) (name : Str) (e : Str × Str)
    (hnd : (a.psr4.map Prod.fst).Nodup)
    (he : e ∈ a.psr4) (hpre : e.1.isPrefixOf (name ++ ['\\']) = true)
    (hmax : ∀ f ∈ a.psr4, f.1.isPrefixOf (name ++ ['\\']) = true → f.1.length ≤ e.1.length)
    (hval : e.2 = []) :
    a.Psr4PathForNamespace name = ([], false) := by
  by_cases hnil : e.1 = []
  · refine psr4_all_short a name (fun f hf hpf => ?_)
    have hle := hmax f hf hpf
    rw [hnil] at hle
    simpa using hle
  · rw [psr4_best a name e hnd he hpre hmax hnil, if_pos hval]

/-- Claim C10 witness: the theorem applied to a table where the shorter
key "My\" maps to "x" but the longest matching key "My\Core\" maps to
the empty path. -/
theorem psr4PathForNamespace_empty_path_not_found_witness :
    Autoload.Psr4PathForNamespace
      ⟨[("My\\".data, "x".data), ("My\\Core\\".data, [])], []⟩ "My\\Core".data = ([], false) :=
  psr4PathForNamespace_empty_path_not_found
    ⟨[("My\\".data, "x".data), ("My\\Core\\".data, [])], []⟩ "My\\Core".data
    ("My\\Core\\".data, []) (by decide) (by decide) (by decide) (by decide) rfl

/-! ### Validation pipeline -/

theorem checkConfig_foldl (c : Config) (checks : List (Config → Option ConfigError)) :
    ∀ (cfg : Option Config) (acc : List ConfigError),
      checks.foldl
        (fun (acc : ConfigErrors) (check : Config → Option ConfigError) =>
          match check c with
          | some err => acc.Add err
          | none => acc)
        ⟨cfg, acc⟩
      = ⟨cfg, acc ++ checks.filterMap (fun check => check c)⟩ := by
  induction checks with
  | nil => intro cfg acc; simp
  | cons ch rest ih =>
    intro cfg acc
    rw [List.foldl_cons, List.filterMap_cons]
    cases hch : ch c with
    | none =>
      simp only [hch]
      exact ih cfg acc
    | some err =>
      simp only [hch]
      have hadd : ConfigErrors.Add ⟨cfg, acc⟩ err = ⟨cfg, acc ++ [err]⟩ := rfl
      rw [hadd, ih cfg (acc ++ [err]), List.append_assoc]
      rfl

/-- Claim C4: `CheckConfig` runs every registered check (it never stops
early, even on a critical finding), collects the non-nil findings in
registration order — this is exactly `filterMap` over the check list —
and returns nil precisely when no finding was produced, otherwise a
report holding exactly those findings with the config back-reference
set. -/
theorem checkConfig_spec (c : Config) (checks : List (Config → Option ConfigError)) :
    Config.CheckConfig c checks =
      (if checks.filterMap (fun check => check c) = [] then none
       else some ⟨some c, checks.filterMap (fun check => check c)⟩) := by
  unfold Config.CheckConfig
  simp only []
  rw [checkConfig_foldl c checks (some c) []]
  simp only [List.nil_append, ConfigErrors.Len, List.length_eq_zero]

/-! ### Manifest-level namespace dispatch -/

/-- Claim C7: the config-level lookup tries the primary autoload table
first, falls back to the dev table only on a miss, reports not-found
when both miss, and on success prefixes the found relative path with the
base name of the manifest's directory and a slash. -/
theorem config_psr4_dispatch (c : Config) (name : Str) :
    (∀ p : Str, c.autoload.Psr4PathForNamespace name = (p, true) →
        c.Psr4PathForNamespace name = (filepathBase c.rootDir ++ '/' :: p, true))
  ∧ ((c.autoload.Psr4PathForNamespace name).2 = false →
      ∀ p : Str, c.autoloadDev.Psr4PathForNamespace name = (p, true) →
        c.Psr4PathForNamespace name = (filepathBase c.rootDir ++ '/' :: p, true))
  ∧ ((c.autoload.Psr4PathForNamespace name).2 = false →
      (c.autoloadDev.Psr4PathForNamespace name).2 = false →
      c.Psr4PathForNamespace name = ([], false)) := by
  refine ⟨?_, ?_, ?_⟩
  · intro p hp
    unfold Config.Psr4PathForNamespace
    simp only []
    rw [hp]
    rfl
  · intro h1 p hp
    unfold Config.Psr4PathForNamespace
    simp only []
    rw [h1, hp]
    rfl
  · intro h1 h2
    unfold Config.Psr4PathForNamespace
    simp only []
    rw [h1, h2]
    rfl

/-- Claim C7 witness: the theorem applied to a config whose manifest
lives in /proj/app and declares the primary table of the spec example. -/
theorem config_psr4_dispatch_witness :
    Config.Psr4PathForNamespace
      { emptyConfig with
        rootDir := "/proj/app".data,
        autoload := ⟨[("My\\Core\\".data, "src".data)], []⟩ }
      "My\\Core".data = ("app/src".data, true) :=
  ((config_psr4_dispatch _ _).1 "src".data (by decide)).trans (by decide)

/-! ### Error rendering and the loader -/

/-- Claim C3 (code bug): rendering the error list that the loader
returns on a decode failure dereferences the nil `Config` back-reference
(`NewConfigErrors` never sets it), so `ConfigErrors.Error` panics there
(modelled as `none`) instead of producing path-prefixed lines; when the
back-reference IS set, the renderer does produce exactly one
path-prefixed line per finding, as the claim demands. -/
theorem configErrors_render_nil_config_bug :
    (NewConfigErrors [⟨"unexpected end of JSON input".data, true⟩]).Error = none
  ∧ ConfigErrors.Error
      ⟨some { emptyConfig with path := "/proj/app/composer.json".data },
       [⟨"e1".data, false⟩, ⟨"e2".data, true⟩]⟩
      = some ("config /proj/app/composer.json: e1\n".data
              ++ "config /proj/app/composer.json: <critical> e2\n".data) := by
  exact ⟨by decide, by decide⟩

/-- Claim C8: when the decoded JSON is valid but the version string does
not parse, the loader still returns the populated model — all decoded
fields intact, the parsed version absent, path and root directory set —
together with an error list holding exactly one non-critical finding. -/
theorem newConfigFromData_version_error_nonfatal (c0 : Config) (absPath rootDir : Str)
    (e : VersionError) (h : NewVersion c0.rawVersion = .error e) :
    NewConfigFromData (.ok c0) absPath rootDir =
      ({ c0 with version := none, path := absPath, rootDir := rootDir },
       some ⟨some { c0 with version := none, path := absPath, rootDir := rootDir },
             [⟨e.message, false⟩]⟩) := by
  unfold NewConfigFromData
  simp only [h]
  rw [if_pos (by simp)]

/-- Claim C8 witness: the theorem applied to a decoded config whose raw
version string "x" is too short to parse. -/
theorem newConfigFromData_version_error_nonfatal_witness :
    NewConfigFromData (.ok { emptyConfig with rawVersion := "x".data })
      "/p/composer.json".data "/p".data
      = ({ { emptyConfig with rawVersion := "x".data } with
           version := none, path := "/p/composer.json".data, rootDir := "/p".data },
         some ⟨some { { emptyConfig with rawVersion := "x".data } with
                      version := none, path := "/p/composer.json".data, rootDir := "/p".data },
               [⟨VersionError.malformedFormat.message, false⟩]⟩) :=
  newConfigFromData_version_error_nonfatal
    { emptyConfig with rawVersion := "x".data } "/p/composer.json".data "/p".data
    .malformedFormat (by decide)

/-! ### Dependency resolution -/

/-- Claim C9: `ResolveUrl` is idempotent; an already-resolved entry or a
non-"path"-type entry is returned unchanged; a first application to an
unresolved "path" entry changes only the url field — to the cleaned,
slash-normalized join of the base path and the url — and sets the
resolved flag. -/
theorem resolveUrl_idempotent (e : ConfigRepo) (p : Str) :
    ConfigRepo.ResolveUrl (ConfigRepo.ResolveUrl e p) p = ConfigRepo.ResolveUrl e p
  ∧ (e.resolved = true → ConfigRepo.ResolveUrl e p = e)
  ∧ (¬ e.type = "path".data → ConfigRepo.ResolveUrl e p = e)
  ∧ (e.resolved = false → e.type = "path".data →
      ConfigRepo.ResolveUrl e p =
        { e with
          url := filepathToSlash (filepathClean (filepathJoin p e.url)),
          resolved := true }) := by
  have hres : ∀ e1 : ConfigRepo, e1.resolved = true → ConfigRepo.ResolveUrl e1 p = e1 := by
    intro e1 h
    unfold ConfigRepo.ResolveUrl
    rw [if_pos h]
  have hty : ∀ e1 : ConfigRepo, ¬ e1.type = "path".data → ConfigRepo.ResolveUrl e1 p = e1 := by
    intro e1 h
    by_cases h1 : e1.resolved = true
    · exact hres e1 h1
    · unfold ConfigRepo.ResolveUrl
      rw [if_neg h1, if_pos h]
  have hfresh : ∀ e1 : ConfigRepo, e1.resolved = false → e1.type = "path".data →
      ConfigRepo.ResolveUrl e1 p =
        { e1 with
          url := filepathToSlash (filepathClean (filepathJoin p e1.url)),
          resolved := true } := by
    intro e1 h1 h2
    unfold ConfigRepo.ResolveUrl
    rw [if_neg (by rw [h1]; exact Bool.false_ne_true), if_neg (fun hn => hn h2)]
  refine ⟨?_, hres e, hty e, hfresh e⟩
  by_cases h1 : e.resolved = true
  · rw [hres e h1, hres e h1]
  · by_cases h2 : e.type = "path".data
    · rw [hfresh e (Bool.eq_false_iff.mpr h1) h2]
      exact hres _ rfl
    · rw [hty e h2, hty e h2]

/-- Claim C9 witness: the theorem applied to the spec example — a
"path"-type entry with url "../lib" resolved against "/proj/app" — plus
the resulting cleaned, slash-normalized url. -/
theorem resolveUrl_idempotent_witness :
    ConfigRepo.ResolveUrl ⟨"path".data, "../lib".data, false⟩ "/proj/app".data
      = ⟨"path".data, "/proj/lib".data, true⟩ :=
  ((resolveUrl_idempotent ⟨"path".data, "../lib".data, false⟩ "/proj/app".data).2.2.2
      rfl rfl).trans (by decide)
